import Mathlib

/-!
Verification of the license-key generator `lisans_olusturucu.py`.

The program derives a human-typeable license key from an expiry date:
it concatenates a school code, the year string, a zero-padded month-day
string and a secret key, folds the UTF-8 bytes of that concatenation
into a 32-bit rolling-hash accumulator, extracts four 5-bit fields from
the accumulator and maps them through a 32-symbol alphabet, and formats
the result as `KBOA-<year>-<monthday>-<code>`.

The definitions below are a shallow embedding of that program: strings
are Lean strings, the UTF-8 encoding is made explicit as a function to
byte lists, machine arithmetic is `Nat` with explicit masking, and the
interactive range validation of `main` is embedded as a boolean
predicate on the three integer inputs.
-/

/-- UTF-8 encoding of a single character as a list of byte values,
mirroring what Python's `str.encode('utf-8')` produces per code point. -/
def utf8EncodeChar (c : Char) : List Nat :=
  let n := c.toNat
  if n < 0x80 then [n]
  else if n < 0x800 then [0xC0 ||| (n >>> 6), 0x80 ||| (n &&& 0x3F)]
  else if n < 0x10000 then
    [0xE0 ||| (n >>> 12), 0x80 ||| ((n >>> 6) &&& 0x3F), 0x80 ||| (n &&& 0x3F)]
  else
    [0xF0 ||| (n >>> 18), 0x80 ||| ((n >>> 12) &&& 0x3F),
     0x80 ||| ((n >>> 6) &&& 0x3F), 0x80 ||| (n &&& 0x3F)]

/-- UTF-8 encoding of a whole string, the embedding of
`input_str.encode('utf-8')`. -/
def strToUTF8 (s : String) : List Nat := (s.data.map utf8EncodeChar).flatten

/-- `SCHOOL_CODE = "KBOA"` from the source. -/
def SCHOOL_CODE : String := "KBOA"

/-- `SECRET_KEY = "HatipoğluÖmerAkarsel2024"` from the source. -/
def SECRET_KEY : String := "HatipoğluÖmerAkarsel2024"

/-- `CHARS = "ABCDEFGHJKLMNPQRSTUVWXYZ23456789"` from the source,
kept as its character list for indexing. -/
def CHARS : List Char := "ABCDEFGHJKLMNPQRSTUVWXYZ23456789".data

/-- The hash loop of `generate_verification_code`:
`hash_val = ((hash_val << 5) - hash_val + byte) & 0xFFFFFFFF` folded
over the bytes, accumulator starting at 0. -/
def hashBytes (bs : List Nat) : Nat :=
  bs.foldl (fun hash_val byte => ((hash_val <<< 5) - hash_val + byte) &&& 0xFFFFFFFF) 0

/-- The output loop of `generate_verification_code`:
`code += CHARS[(hash_val >> (i * 5)) & 31]` for `i` in `range(4)`. -/
def code_of_hash (hash_val : Nat) : String :=
  String.mk ((List.range 4).map fun i => CHARS.getD ((hash_val >>> (i * 5)) &&& 31) 'A')

/-- The byte sequence hashed by `generate_verification_code`:
the UTF-8 bytes of `f"{SCHOOL_CODE}{year}{month_day}{SECRET_KEY}"`. -/
def hashInput (year month_day : String) : List Nat :=
  strToUTF8 (SCHOOL_CODE ++ year ++ month_day ++ SECRET_KEY)

/-- `generate_verification_code(year, month_day)` from the source:
hash the concatenation's UTF-8 bytes, then extract four alphabet
characters from the accumulator. -/
def generate_verification_code (year month_day : String) : String :=
  code_of_hash (hashBytes (hashInput year month_day))

/-- Python's `f"{n:02d}"` for a natural number: zero-pad the decimal
form to a minimum width of 2. -/
def pad2 (n : Nat) : String := if n < 10 then "0" ++ toString n else toString n

/-- `generate_license_key(year, month, day)` from the source:
`month_day = f"{month:02d}{day:02d}"`, then
`f"KBOA-{year}-{month_day}-{verification}"`. -/
def generate_license_key (year month day : Nat) : String :=
  let month_day := pad2 month ++ pad2 day
  let verification := generate_verification_code (toString year) month_day
  "KBOA-" ++ toString year ++ "-" ++ month_day ++ "-" ++ verification

/-- The range validation of `main`: a date is accepted exactly when none
of the three `if ...: continue` rejections fire. Inputs are integers, as
produced by Python's `int(input(...))`. -/
def main_accepts (year month day : Int) : Bool :=
  if year < 2024 ∨ year > 2100 then false
  else if month < 1 ∨ month > 12 then false
  else if day < 1 ∨ day > 31 then false
  else true

/-- Modelled from the spec: the hash fold written as
`hash = (hash * 31 + byte) mod 2^32`, the multiplicative form the spec
states is bit-identical to the shift form used by the code. -/
def hashBytes_spec (bs : List Nat) : Nat :=
  bs.foldl (fun hash_val byte => (hash_val * 31 + byte) % 4294967296) 0

/-- Decimal parsing of a character list, used to state round-trip
properties of the key format. -/
def parseNat (l : List Char) : Nat :=
  l.foldl (fun acc c => acc * 10 + (c.toNat - 48)) 0

/-- Decimal parsing of a byte list (ASCII digit values). -/
def parseBytes (l : List Nat) : Nat :=
  l.foldl (fun acc b => acc * 10 + (b - 48)) 0

/-- Splitting a character list on `'-'`, the embedding of
`str.split('-')` on the key string. -/
def splitDash : List Char → List (List Char)
  | [] => [[]]
  | c :: rest =>
    if c = '-' then [] :: splitDash rest
    else
      match splitDash rest with
      | [] => [[c]]
      | f :: fs => (c :: f) :: fs

/- ### Helper lemmas -/

theorem hash_step_eq (h b : Nat) :
    ((h <<< 5) - h + b) &&& 0xFFFFFFFF = (h * 31 + b) % 4294967296 := by
  have h1 : h <<< 5 = h * 2 ^ 5 := Nat.shiftLeft_eq h 5
  have h2 : h * 2 ^ 5 - h + b = h * 31 + b := by
    have : h * 2 ^ 5 = h * 32 := by norm_num
    omega
  have h3 : (0xFFFFFFFF : Nat) = 2 ^ 32 - 1 := by norm_num
  rw [h1, h2, h3, Nat.and_pow_two_sub_one_eq_mod]

theorem splitDash_ne_nil (l : List Char) : splitDash l ≠ [] := by
  induction l with
  | nil => simp [splitDash]
  | cons c rest ih =>
    by_cases hc : c = '-'
    · simp [splitDash, hc]
    · simp only [splitDash, if_neg hc]
      cases hfs : splitDash rest with
      | nil => simp
      | cons f fs => simp

theorem splitDash_no_dash (l : List Char) (h : '-' ∉ l) : splitDash l = [l] := by
  induction l with
  | nil => rfl
  | cons c rest ih =>
    have hc : c ≠ '-' := fun e => h (e ▸ List.mem_cons_self c rest)
    have hrest : '-' ∉ rest := fun hm => h (List.mem_cons_of_mem c hm)
    simp only [splitDash, if_neg hc, ih hrest]

theorem splitDash_append_dash (a l : List Char) (h : '-' ∉ a) :
    splitDash (a ++ '-' :: l) = a :: splitDash l := by
  induction a with
  | nil => simp [splitDash]
  | cons c rest ih =>
    have hc : c ≠ '-' := fun e => h (e ▸ List.mem_cons_self c rest)
    have hrest : '-' ∉ rest := fun hm => h (List.mem_cons_of_mem c hm)
    simp only [List.cons_append, splitDash, if_neg hc, List.append_eq]
    rw [ih hrest]

theorem strToUTF8_append (s t : String) :
    strToUTF8 (s ++ t) = strToUTF8 s ++ strToUTF8 t := by
  simp [strToUTF8, String.data_append]

theorem code_of_hash_data (h : Nat) :
    (code_of_hash h).data =
      [CHARS.getD ((h >>> (0 * 5)) &&& 31) 'A',
       CHARS.getD ((h >>> (1 * 5)) &&& 31) 'A',
       CHARS.getD ((h >>> (2 * 5)) &&& 31) 'A',
       CHARS.getD ((h >>> (3 * 5)) &&& 31) 'A'] := rfl

theorem chars_getD_mem : ∀ j < 32, CHARS.getD j 'A' ∈ CHARS := by decide

theorem chars_not_ambiguous :
    ∀ c ∈ CHARS, c ≠ '0' ∧ c ≠ '1' ∧ c ≠ 'I' ∧ c ≠ 'O' := by decide

theorem chars_no_dash : ∀ c ∈ CHARS, c ≠ '-' := by decide

theorem code_of_hash_mem (h : Nat) : ∀ c ∈ (code_of_hash h).data, c ∈ CHARS := by
  intro c hc
  rw [code_of_hash_data] at hc
  simp only [List.mem_cons, List.not_mem_nil, or_false] at hc
  rcases hc with e | e | e | e <;>
    exact e ▸ chars_getD_mem _ (Nat.lt_succ_of_le (Nat.and_le_right))

theorem pad2_facts :
    ∀ n < 100, (pad2 n).length = 2 ∧ (∀ c ∈ (pad2 n).data, c.isDigit) ∧
      '-' ∉ (pad2 n).data ∧ parseNat (pad2 n).data = n ∧
      (strToUTF8 (pad2 n)).length = 2 ∧ parseBytes (strToUTF8 (pad2 n)) = n := by decide

set_option maxRecDepth 10000 in
theorem year_repr_facts :
    ∀ k < 77, '-' ∉ (toString (2024 + k)).data ∧
      parseNat (toString (2024 + k)).data = 2024 + k := by decide

theorem field_cong (a b : Nat) (hab : a % 2 ^ 20 = b % 2 ^ 20) (k : Nat)
    (hk : k + 5 ≤ 20) : (a >>> k) &&& 31 = (b >>> k) &&& 31 := by
  have h31 : (31 : Nat) = 2 ^ 5 - 1 := by norm_num
  rw [h31, Nat.and_pow_two_sub_one_eq_mod, Nat.and_pow_two_sub_one_eq_mod,
    Nat.shiftRight_eq_div_pow, Nat.shiftRight_eq_div_pow,
    ← Nat.mod_mul_right_div_self, ← Nat.mod_mul_right_div_self]
  have hdvd : 2 ^ k * 2 ^ 5 ∣ 2 ^ 20 := by
    rw [← pow_add]; exact pow_dvd_pow 2 (by omega)
  rw [← Nat.mod_mod_of_dvd a hdvd, ← Nat.mod_mod_of_dvd b hdvd, hab]

/- ### Claim theorems -/

/-- C1: for every finite byte sequence, the left-shift form of the hash
fold used by the code, `((hash <<< 5) - hash + byte) &&& 0xFFFFFFFF`,
computes exactly the accumulator of the multiplicative form
`(hash * 31 + byte) mod 2^32` stated by the spec: the two formulations
yield equal accumulators for every input. -/
theorem C1_hash_refinement (bs : List Nat) : hashBytes bs = hashBytes_spec bs := by
  simp only [hashBytes, hashBytes_spec]
  congr 1
  funext h b
  exact hash_step_eq h b

/-- C2: the code character at position `i` (for `i < 4`) is the alphabet
symbol at index `(hash >>> (i * 5)) &&& 31`, so position 0 consumes the
lowest 5 bits and bits 20–31 are unused: two hashes congruent modulo
`2 ^ 20` give the identical 4-character code. -/
theorem C2_bit_extraction (h1 h2 : Nat) (hb1 : h1 < 2 ^ 32) (hb2 : h2 < 2 ^ 32)
    (hcong : h1 % 2 ^ 20 = h2 % 2 ^ 20) (i : Nat) (hi : i < 4) :
    (code_of_hash h1).data.getD i 'A' = CHARS.getD ((h1 >>> (i * 5)) &&& 31) 'A'
      ∧ code_of_hash h1 = code_of_hash h2 := by
  constructor
  · interval_cases i <;> simp [code_of_hash_data]
  · unfold code_of_hash
    congr 1
    apply List.map_congr_left
    intro a ha
    have ha4 : a < 4 := List.mem_range.mp ha
    congr 1
    exact field_cong h1 h2 hcong (a * 5) (by omega)

/-- Witness for C2 at `h1 = 5`, `h2 = 5 + 2 ^ 20`, `i = 2`. -/
theorem C2_bit_extraction_witness :
    (5 < 2 ^ 32 ∧ 1048581 < 2 ^ 32 ∧ 5 % 2 ^ 20 = 1048581 % 2 ^ 20 ∧ 2 < 4)
      ∧ ((code_of_hash 5).data.getD 2 'A' = CHARS.getD ((5 >>> (2 * 5)) &&& 31) 'A'
          ∧ code_of_hash 5 = code_of_hash 1048581) :=
  ⟨by decide, C2_bit_extraction 5 1048581 (by decide) (by decide) (by decide) 2 (by decide)⟩

/-- C3: for year 2027, month 1, day 15, the byte sequence hashed by the
derivation inside `generate_license_key` is exactly the UTF-8 encoding of
`"KBOA" ++ "2027" ++ "0115" ++ "HatipoğluÖmerAkarsel2024"`, listed
explicitly (the two-byte sequences 196 159 and 195 150 encode the
non-ASCII characters of the secret). -/
theorem C3_known_vector_bytes :
    hashInput (toString 2027) (pad2 1 ++ pad2 15)
        = strToUTF8 ("KBOA" ++ "2027" ++ "0115" ++ "HatipoğluÖmerAkarsel2024")
      ∧ hashInput (toString 2027) (pad2 1 ++ pad2 15)
        = [75, 66, 79, 65, 50, 48, 50, 55, 48, 49, 49, 53, 72, 97, 116, 105, 112, 111,
           196, 159, 108, 117, 195, 150, 109, 101, 114, 65, 107, 97, 114, 115, 101, 108,
           50, 48, 50, 52] :=
  ⟨by decide, by decide⟩

/-- C4: for every valid date, the generated key is
`"KBOA-" ++ year ++ "-" ++ monthday ++ "-" ++ code` where the month-day
field is exactly 4 digits and the code is exactly 4 characters from the
32-symbol alphabet; in particular no code character is 0, 1, I or O. -/
theorem C4_key_format (year month day : Nat)
    (hy1 : 2024 ≤ year) (hy2 : year ≤ 2100) (hm1 : 1 ≤ month) (hm2 : month ≤ 12)
    (hd1 : 1 ≤ day) (hd2 : day ≤ 31) :
    ∃ md code : String,
      generate_license_key year month day
          = "KBOA-" ++ toString year ++ "-" ++ md ++ "-" ++ code
        ∧ md.length = 4 ∧ (∀ c ∈ md.data, c.isDigit)
        ∧ code.length = 4 ∧ (∀ c ∈ code.data, c ∈ CHARS)
        ∧ ∀ c ∈ code.data, c ≠ '0' ∧ c ≠ '1' ∧ c ≠ 'I' ∧ c ≠ 'O' := by
  refine ⟨pad2 month ++ pad2 day,
    generate_verification_code (toString year) (pad2 month ++ pad2 day),
    rfl, ?_, ?_, rfl, code_of_hash_mem _, ?_⟩
  · have h1 := (pad2_facts month (by omega)).1
    have h2 := (pad2_facts day (by omega)).1
    simp [String.length_append, h1, h2]
  · intro c hc
    rw [String.data_append] at hc
    rcases List.mem_append.mp hc with h | h
    · exact (pad2_facts month (by omega)).2.1 c h
    · exact (pad2_facts day (by omega)).2.1 c h
  · intro c hc
    exact chars_not_ambiguous c (code_of_hash_mem _ c hc)

/-- Witness for C4 at the date 2027-01-15. -/
theorem C4_key_format_witness :
    ∃ md code : String,
      generate_license_key 2027 1 15
          = "KBOA-" ++ toString 2027 ++ "-" ++ md ++ "-" ++ code
        ∧ md.length = 4 ∧ (∀ c ∈ md.data, c.isDigit)
        ∧ code.length = 4 ∧ (∀ c ∈ code.data, c ∈ CHARS)
        ∧ ∀ c ∈ code.data, c ≠ '0' ∧ c ≠ '1' ∧ c ≠ 'I' ∧ c ≠ 'O' :=
  C4_key_format 2027 1 15 (by decide) (by decide) (by decide) (by decide)
    (by decide) (by decide)

/-- C5: `generate_license_key` is deterministic — it is a pure function
of its three arguments, so any two calls with equal arguments return
the identical string. -/
theorem C5_determinism (y m d y2 m2 d2 : Nat)
    (hy1 : 2024 ≤ y) (hy2 : y ≤ 2100) (hm1 : 1 ≤ m) (hm2 : m ≤ 12)
    (hd1 : 1 ≤ d) (hd2 : d ≤ 31)
    (ey : y = y2) (em : m = m2) (ed : d = d2) :
    generate_license_key y m d = generate_license_key y2 m2 d2 := by
  subst ey; subst em; subst ed; rfl

/-- Witness for C5 at the date 2027-01-15. -/
theorem C5_determinism_witness :
    generate_license_key 2027 1 15 = generate_license_key 2027 1 15 :=
  C5_determinism 2027 1 15 2027 1 15 (by decide) (by decide) (by decide)
    (by decide) (by decide) (by decide) rfl rfl rfl

/-- C6: `generate_verification_code` is total over all pairs of input
strings: it always returns a 4-character string, and its hash loop is a
fold that processes the encoded concatenation's byte list once per
byte. -/
theorem C6_totality (year month_day : String) :
    (generate_verification_code year month_day).length = 4
      ∧ generate_verification_code year month_day
        = code_of_hash ((hashInput year month_day).foldl
            (fun hash_val byte => ((hash_val <<< 5) - hash_val + byte) &&& 0xFFFFFFFF) 0) :=
  ⟨rfl, rfl⟩

set_option maxRecDepth 10000 in
/-- C7: the range check in `main` accepts exactly
year ∈ [2024, 2100], month ∈ [1, 12], day ∈ [1, 31]; each boundary value
passes and each value just outside fails, and day is never checked
against the month's length: February 31 is accepted and produces a key. -/
theorem C7_boundary_acceptance :
    (∀ y m d : Int, main_accepts y m d = true ↔
        (2024 ≤ y ∧ y ≤ 2100 ∧ 1 ≤ m ∧ m ≤ 12 ∧ 1 ≤ d ∧ d ≤ 31))
      ∧ main_accepts 2024 1 1 = true ∧ main_accepts 2100 12 31 = true
      ∧ main_accepts 2023 6 15 = false ∧ main_accepts 2101 6 15 = false
      ∧ main_accepts 2027 1 15 = true ∧ main_accepts 2027 12 15 = true
      ∧ main_accepts 2027 0 15 = false ∧ main_accepts 2027 13 15 = false
      ∧ main_accepts 2027 6 1 = true ∧ main_accepts 2027 6 31 = true
      ∧ main_accepts 2027 6 0 = false ∧ main_accepts 2027 6 32 = false
      ∧ main_accepts 2027 2 31 = true
      ∧ generate_license_key 2027 2 31 = "KBOA-2027-0231-XS7G" := by
  refine ⟨?_, by decide, by decide, by decide, by decide, by decide, by decide,
    by decide, by decide, by decide, by decide, by decide, by decide, by decide,
    by decide⟩
  intro y m d
  simp only [main_accepts]
  split_ifs <;> simp <;> omega

theorem key_data (year month day : Nat) :
    (generate_license_key year month day).data
      = ['K', 'B', 'O', 'A'] ++ '-' :: ((toString year).data
          ++ '-' :: (((pad2 month).data ++ (pad2 day).data)
          ++ '-' :: (generate_verification_code (toString year)
              (pad2 month ++ pad2 day)).data)) := by
  simp only [generate_license_key, String.data_append]
  simp [String.data_append]

set_option maxRecDepth 10000 in
/-- C8: the derivation gives no uniqueness guarantee — two distinct
valid dates, 2024-02-10 and 2095-01-06, produce the identical
verification code. -/
theorem C8_collision_exists :
    ∃ y1 m1 d1 y2 m2 d2 : Nat,
      (2024 ≤ y1 ∧ y1 ≤ 2100 ∧ 1 ≤ m1 ∧ m1 ≤ 12 ∧ 1 ≤ d1 ∧ d1 ≤ 31)
        ∧ (2024 ≤ y2 ∧ y2 ≤ 2100 ∧ 1 ≤ m2 ∧ m2 ≤ 12 ∧ 1 ≤ d2 ∧ d2 ≤ 31)
        ∧ (y1, m1, d1) ≠ (y2, m2, d2)
        ∧ generate_verification_code (toString y1) (pad2 m1 ++ pad2 d1)
            = generate_verification_code (toString y2) (pad2 m2 ++ pad2 d2) :=
  ⟨2024, 2, 10, 2095, 1, 6, by decide, by decide, by decide, by decide⟩

set_option maxRecDepth 10000 in
/-- C9: splitting the generated key on `'-'` yields exactly four fields,
and decimal parsing recovers the year from field 2 and the month and day
from the first and last two digits of field 3. -/
theorem C9_roundtrip (year month day : Nat)
    (hy1 : 2024 ≤ year) (hy2 : year ≤ 2100) (hm1 : 1 ≤ month) (hm2 : month ≤ 12)
    (hd1 : 1 ≤ day) (hd2 : day ≤ 31) :
    (splitDash (generate_license_key year month day).data).length = 4
      ∧ parseNat ((splitDash (generate_license_key year month day).data).getD 1 []) = year
      ∧ parseNat (((splitDash (generate_license_key year month day).data).getD 2 []).take 2)
          = month
      ∧ parseNat (((splitDash (generate_license_key year month day).data).getD 2 []).drop 2)
          = day := by
  have hyk : year - 2024 < 77 := by omega
  have hyfacts := year_repr_facts (year - 2024) hyk
  have hyy : 2024 + (year - 2024) = year := by omega
  rw [hyy] at hyfacts
  have hmf := pad2_facts month (by omega)
  have hdf := pad2_facts day (by omega)
  have hmlen : (pad2 month).data.length = 2 := hmf.1
  have hcode : '-' ∉ (generate_verification_code (toString year)
      (pad2 month ++ pad2 day)).data := by
    intro hmem
    exact chars_no_dash _ (code_of_hash_mem _ _ hmem) rfl
  have hmd : '-' ∉ (pad2 month).data ++ (pad2 day).data := by
    intro hmem
    rcases List.mem_append.mp hmem with h | h
    · exact hmf.2.2.1 h
    · exact hdf.2.2.1 h
  have hsplit : splitDash (generate_license_key year month day).data
      = [['K', 'B', 'O', 'A'], (toString year).data,
         (pad2 month).data ++ (pad2 day).data,
         (generate_verification_code (toString year) (pad2 month ++ pad2 day)).data] := by
    rw [key_data, splitDash_append_dash _ _ (by decide),
      splitDash_append_dash _ _ hyfacts.1, splitDash_append_dash _ _ hmd,
      splitDash_no_dash _ hcode]
  rw [hsplit]
  refine ⟨rfl, hyfacts.2, ?_, ?_⟩
  · show parseNat (((pad2 month).data ++ (pad2 day).data).take 2) = month
    rw [List.take_left' hmlen]
    exact hmf.2.2.2.1
  · show parseNat (((pad2 month).data ++ (pad2 day).data).drop 2) = day
    rw [List.drop_left' hmlen]
    exact hdf.2.2.2.1

/-- Witness for C9 at the date 2027-01-15. -/
theorem C9_roundtrip_witness :
    (splitDash (generate_license_key 2027 1 15).data).length = 4
      ∧ parseNat ((splitDash (generate_license_key 2027 1 15).data).getD 1 []) = 2027
      ∧ parseNat (((splitDash (generate_license_key 2027 1 15).data).getD 2 []).take 2) = 1
      ∧ parseNat (((splitDash (generate_license_key 2027 1 15).data).getD 2 []).drop 2) = 15 :=
  C9_roundtrip 2027 1 15 (by decide) (by decide) (by decide) (by decide)
    (by decide) (by decide)

/-- C10: the zero-padded month-day encoding is injective on valid
inputs, so two distinct valid (month, day) pairs in the same year feed
distinct byte sequences to the hash. -/
theorem C10_monthday_injective (m d m2 d2 : Nat)
    (hm1 : 1 ≤ m) (hm2 : m ≤ 12) (hd1 : 1 ≤ d) (hd2 : d ≤ 31)
    (hm21 : 1 ≤ m2) (hm22 : m2 ≤ 12) (hd21 : 1 ≤ d2) (hd22 : d2 ≤ 31) :
    (pad2 m ++ pad2 d = pad2 m2 ++ pad2 d2 → m = m2 ∧ d = d2)
      ∧ ((m, d) ≠ (m2, d2) → ∀ y : String,
          hashInput y (pad2 m ++ pad2 d) ≠ hashInput y (pad2 m2 ++ pad2 d2)) := by
  have hmf := pad2_facts m (by omega)
  have hdf := pad2_facts d (by omega)
  have hmf2 := pad2_facts m2 (by omega)
  have hdf2 := pad2_facts d2 (by omega)
  constructor
  · intro he
    have hdata : (pad2 m).data ++ (pad2 d).data = (pad2 m2).data ++ (pad2 d2).data := by
      have hc := congrArg String.data he
      simpa [String.data_append] using hc
    have hlen : (pad2 m).data.length = (pad2 m2).data.length := by
      have e1 : (pad2 m).data.length = 2 := hmf.1
      have e2 : (pad2 m2).data.length = 2 := hmf2.1
      omega
    obtain ⟨e1, e2⟩ := List.append_inj hdata hlen
    refine ⟨?_, ?_⟩
    · calc m = parseNat (pad2 m).data := (hmf.2.2.2.1).symm
        _ = parseNat (pad2 m2).data := by rw [e1]
        _ = m2 := hmf2.2.2.2.1
    · calc d = parseNat (pad2 d).data := (hdf.2.2.2.1).symm
        _ = parseNat (pad2 d2).data := by rw [e2]
        _ = d2 := hdf2.2.2.2.1
  · intro hne y heq
    apply hne
    have h1 : strToUTF8 (pad2 m) ++ (strToUTF8 (pad2 d) ++ strToUTF8 SECRET_KEY)
        = strToUTF8 (pad2 m2) ++ (strToUTF8 (pad2 d2) ++ strToUTF8 SECRET_KEY) := by
      have hc : hashInput y (pad2 m ++ pad2 d) = hashInput y (pad2 m2 ++ pad2 d2) := heq
      simp only [hashInput, strToUTF8_append, List.append_assoc] at hc
      exact List.append_cancel_left (List.append_cancel_left hc)
    have hlen : (strToUTF8 (pad2 m)).length = (strToUTF8 (pad2 m2)).length := by
      have e1 : (strToUTF8 (pad2 m)).length = 2 := hmf.2.2.2.2.1
      have e2 : (strToUTF8 (pad2 m2)).length = 2 := hmf2.2.2.2.2.1
      omega
    obtain ⟨e1, e2⟩ := List.append_inj h1 hlen
    have e3 := List.append_cancel_right e2
    have em : m = m2 := by
      calc m = parseBytes (strToUTF8 (pad2 m)) := (hmf.2.2.2.2.2).symm
        _ = parseBytes (strToUTF8 (pad2 m2)) := by rw [e1]
        _ = m2 := hmf2.2.2.2.2.2
    have ed : d = d2 := by
      calc d = parseBytes (strToUTF8 (pad2 d)) := (hdf.2.2.2.2.2).symm
        _ = parseBytes (strToUTF8 (pad2 d2)) := by rw [e3]
        _ = d2 := hdf2.2.2.2.2.2
    simp only [Prod.mk.injEq]
    exact ⟨em, ed⟩

/-- Witness for C10 at the pairs (1, 5) and (2, 6). -/
theorem C10_monthday_injective_witness :
    (pad2 1 ++ pad2 5 = pad2 2 ++ pad2 6 → 1 = 2 ∧ 5 = 6)
      ∧ (((1 : Nat), (5 : Nat)) ≠ ((2 : Nat), (6 : Nat)) → ∀ y : String,
          hashInput y (pad2 1 ++ pad2 5) ≠ hashInput y (pad2 2 ++ pad2 6)) :=
  C10_monthday_injective 1 5 2 6 (by decide) (by decide) (by decide) (by decide)
    (by decide) (by decide) (by decide) (by decide)
